import Mathlib

/-!
# Verification of the hacker-news-reel core (SWR/LRU cache, resilient fetch, tree materializer)

Shallow embedding of the repository's core algorithms:

* the SWR/LRU `Cache` class (src/cache.ts),
* the `calculateBackoff` / `fetchWithRetry` utilities (the utilities module of the
  repository, whose source appears at the end of src/api.test.ts),
* the recursive `getItemWithComments` tree materializer (src/api.ts).

The code runs on a single-threaded cooperative scheduler (async/await): all cache
bookkeeping between suspension points is atomic.  The embedding therefore models the
synchronous sections as pure state-transition functions and the suspension points
(promise settlement, sleeps, transport calls) as explicit events, so that the
concurrency claims become statements about sequences of atomic steps.
-/

namespace HNReel

/-! ## Retry options and backoff (utilities module, DEFAULT_RETRY_OPTIONS / calculateBackoff) -/

/-- Retry configuration, mirroring the `Required<RetryOptions>` object obtained after
merging the caller's options with `DEFAULT_RETRY_OPTIONS`.  Durations are rationals
(JS numbers used only through `+ * ^ min` stay exact on rationals). -/
structure RetryOptions where
  maxRetries : Nat
  initialBackoff : ℚ
  maxBackoff : ℚ
  jitter : ℚ
  retryableStatusCodes : List Nat
  retryNetworkErrors : Bool
  backoffFactor : ℚ
  deriving Repr, DecidableEq

/-- DEFAULT_RETRY_OPTIONS from the utilities module. -/
def DEFAULT_RETRY_OPTIONS : RetryOptions where
  maxRetries := 3
  initialBackoff := 300
  maxBackoff := 10000
  jitter := 1 / 5
  retryableStatusCodes := [429, 500, 502, 503, 504]
  retryNetworkErrors := true
  backoffFactor := 2

/-- calculateBackoff (utilities module):

    let backoff = initialBackoff * Math.pow(backoffFactor, attempt);
    const randomFactor = 1 - jitter + Math.random() * (2 * jitter);
    backoff = backoff * randomFactor;
    return Math.min(backoff, maxBackoff);

`rand` stands for the value drawn from `Math.random()`. -/
def calculateBackoff (attempt : Nat) (o : RetryOptions) (rand : ℚ) : ℚ :=
  let backoff := o.initialBackoff * o.backoffFactor ^ attempt
  let randomFactor := 1 - o.jitter + rand * (2 * o.jitter)
  min (backoff * randomFactor) o.maxBackoff

end HNReel

namespace HNReel

/-! ## JS Map as an insertion-ordered association list

`Map.get` / `Map.set` / `Map.delete`: `set` on an existing key updates the entry in
place (keeping its position), otherwise appends; `delete` removes the (unique) entry
with the key; iteration order is insertion order. -/

/-- JS Map.get. -/
def mapGet {α : Type} (m : List (String × α)) (k : String) : Option α :=
  match m with
  | [] => none
  | (k', v) :: rest => if k' = k then some v else mapGet rest k

/-- JS Map.set. -/
def mapSet {α : Type} (m : List (String × α)) (k : String) (v : α) : List (String × α) :=
  match m with
  | [] => [(k, v)]
  | (k', v') :: rest => if k' = k then (k, v) :: rest else (k', v') :: mapSet rest k v

/-- JS Map.delete (removes the first—hence, on a genuine Map, the only—binding). -/
def mapDelete {α : Type} (m : List (String × α)) (k : String) : List (String × α) :=
  match m with
  | [] => []
  | (k', v') :: rest => if k' = k then rest else (k', v') :: mapDelete rest k

/-! ## The SWR/LRU cache (src/cache.ts)

Timestamps are integers (`Date.now()` values).  The cooperative scheduler makes each
synchronous section of the source atomic; the embedding gives one transition function
per atomic section.  Promises are identified by allocation order (`nextPromiseId`);
`loaderCalls` counts invocations of the caller-supplied `fetchFn` (the loader), and
`resolved` records which value each fetch promise eventually resolved with. -/

/-- CacheEntry from src/cache.ts. -/
structure CacheEntry (T : Type) where
  data : T
  timestamp : Int
  lastAccessed : Int
  deriving Repr, DecidableEq

/-- CacheOptions from src/cache.ts.  `maxEntries` is optional; note the eviction code
guards with the JS truthiness test `!maxEntries`, so `some 0` also disables eviction. -/
structure CacheOptions where
  maxAge : Int
  staleWhileRevalidate : Int
  maxEntries : Option Nat
  deriving Repr, DecidableEq

/-- The mutable fields of a Cache instance plus the bookkeeping needed to state the
claims: `cache` and `fetchPromises` are the two Maps of the class; `nextPromiseId`
allocates identities for fetch promises; `loaderCalls` counts loader invocations;
`resolved` records settled fetch-promise values. -/
structure CacheState (T : Type) where
  cache : List (String × CacheEntry T)
  fetchPromises : List (String × Nat)
  nextPromiseId : Nat
  loaderCalls : Nat
  resolved : List (Nat × T)
  deriving Repr, DecidableEq

namespace Cache

/-- evictLRUIfNeeded (src/cache.ts lines 48-70): when `maxEntries` is truthy and the
size exceeds it, sort the (key, lastAccessed) projection ascending by lastAccessed
with a stable sort (JS Array.prototype.sort is stable) and delete the first
`size - maxEntries` keys.  The source's `lastAccessed !== undefined` fallback never
fires for entries produced by this code, which always sets `lastAccessed`. -/
def evictLRUIfNeeded {T : Type} (opts : CacheOptions) (cache : List (String × CacheEntry T)) :
    List (String × CacheEntry T) :=
  match opts.maxEntries with
  | none => cache
  | some m =>
    if m = 0 ∨ cache.length ≤ m then cache
    else
      let entriesToRemove := cache.length - m
      let entries := (cache.map (fun kv => (kv.1, kv.2.lastAccessed))).insertionSort
        (fun a b => a.2 ≤ b.2)
      (entries.take entriesToRemove).foldl (fun c e => mapDelete c e.1) cache

/-- The synchronous prefix of Cache.fetchAndCache (src/cache.ts lines 172-196): the
async IIFE starts running, invokes `fetchFn()` (one loader invocation) and suspends at
its `await`; the resulting promise is then stored in `fetchPromises` (overwriting any
previous in-flight record for the key).  Returns the new promise's id. -/
def fetchAndCacheStart {T : Type} (key : String) (st : CacheState T) : Nat × CacheState T :=
  let pid := st.nextPromiseId
  (pid, { st with
            loaderCalls := st.loaderCalls + 1
            nextPromiseId := pid + 1
            fetchPromises := mapSet st.fetchPromises key pid })

/-- The continuation of fetchAndCache's IIFE when `fetchFn` resolves with `data` at
time `now` (src/cache.ts lines 175-191): store the fresh entry, run eviction, and in
the `finally` clause delete the in-flight record for the key; the promise `pid`
resolves with `data` (recorded in `resolved`). -/
def fetchSettleSuccess {T : Type} (opts : CacheOptions) (key : String) (pid : Nat)
    (data : T) (now : Int) (st : CacheState T) : CacheState T :=
  { st with
      cache := evictLRUIfNeeded opts (mapSet st.cache key ⟨data, now, now⟩)
      fetchPromises := mapDelete st.fetchPromises key
      resolved := (pid, data) :: st.resolved }

/-- The continuation when `fetchFn` rejects: only the `finally` clause runs (the
in-flight record is deleted; nothing is cached) and the promise rejects.  For a
background refresh, the `.catch` in refreshInBackground (lines 158-166) deletes the
record once more, a no-op by then. -/
def fetchSettleFailure {T : Type} (key : String) (st : CacheState T) : CacheState T :=
  { st with fetchPromises := mapDelete st.fetchPromises key }

/-- What the synchronous part of Cache.get hands back to the caller. -/
inductive GetOutcome (T : Type) where
  | hitFresh (v : T)
  | hitStale (v : T) (backgroundPid : Nat)
  | awaitExisting (pid : Nat)
  | startedBlocking (pid : Nat)
  deriving Repr, DecidableEq

/-- The tail of Cache.get for an expired or absent entry (src/cache.ts lines 107-114):
if a fetch is already in flight return that pending promise, otherwise start a
blocking fetchAndCache. -/
def getSyncMiss {T : Type} (key : String) (st : CacheState T) :
    GetOutcome T × CacheState T :=
  match mapGet st.fetchPromises key with
  | some pid => (.awaitExisting pid, st)
  | none =>
    let (pid, st1) := fetchAndCacheStart key st
    (.startedBlocking pid, st1)

/-- The synchronous body of Cache.get (src/cache.ts lines 78-115), with `now` the
value of `Date.now()`:
* fresh entry (now - timestamp < maxAge): bump lastAccessed, return the data;
* stale entry (now - timestamp < staleWhileRevalidate): unconditionally start a
  background refreshInBackground (which runs fetchAndCache), bump lastAccessed,
  return the stale data;
* otherwise fall through to `getSyncMiss`. -/
def getSync {T : Type} (opts : CacheOptions) (now : Int) (key : String)
    (st : CacheState T) : GetOutcome T × CacheState T :=
  match mapGet st.cache key with
  | some e =>
    if now - e.timestamp < opts.maxAge then
      (.hitFresh e.data, { st with cache := mapSet st.cache key { e with lastAccessed := now } })
    else if now - e.timestamp < opts.staleWhileRevalidate then
      let (pid, st1) := fetchAndCacheStart key st
      (.hitStale e.data pid,
        { st1 with cache := mapSet st1.cache key { e with lastAccessed := now } })
    else
      getSyncMiss key st
  | none => getSyncMiss key st

/-- Cache.invalidate (src/cache.ts lines 131-134). -/
def invalidate {T : Type} (key : String) (st : CacheState T) : CacheState T :=
  { st with
      cache := mapDelete st.cache key
      fetchPromises := mapDelete st.fetchPromises key }

/-- N sequential issuances of the synchronous part of get (the cooperative model of N
concurrent callers that all run before the in-flight load settles); call i uses time
`times i`. -/
def getN {T : Type} (opts : CacheOptions) (times : Nat → Int) (key : String) :
    Nat → CacheState T → List (GetOutcome T) × CacheState T
  | 0, st => ([], st)
  | n + 1, st =>
    let (o, st1) := getSync opts (times n) key st
    let (os, st2) := getN opts times key n st1
    (o :: os, st2)

end Cache

/-- The LRU scenario of claim C8 with capacity 3. -/
def lruOpts : CacheOptions := ⟨1000, 2000, some 3⟩

/-- State after the five cache operations of the C8 LRU scenario: insert A (settles
t=1), B (t=3), C (t=5), re-access A at t=6 (fresh hit), insert D (settles t=8). -/
def lruScenario : CacheState Nat :=
  let s0 : CacheState Nat := ⟨[], [], 0, 0, []⟩
  let s1 := Cache.fetchSettleSuccess lruOpts "A" 0 10 1 (Cache.getSync lruOpts 0 "A" s0).2
  let s2 := Cache.fetchSettleSuccess lruOpts "B" 1 20 3 (Cache.getSync lruOpts 2 "B" s1).2
  let s3 := Cache.fetchSettleSuccess lruOpts "C" 2 30 5 (Cache.getSync lruOpts 4 "C" s2).2
  let s4 := (Cache.getSync lruOpts 6 "A" s3).2
  Cache.fetchSettleSuccess lruOpts "D" 3 40 8 (Cache.getSync lruOpts 7 "D" s4).2

/-! ## The tree materializer (src/api.ts, getItemWithComments)

`getItem` is cache-backed and can reject; its outcome for each id is abstracted as a
resolution function `resolve : Nat → Except ε HackerNewsItem` (the claims quantify
over it).  The bottleneck limiter's `schedule` only delays child resolutions, never
drops or reorders their results (Promise.all keeps positional order), so it is
value-transparent and does not appear in the embedding. -/

/-- The fields of a Hacker News item used by getItemWithComments.  JS fields that may
be `undefined` are Options (`deleted`/`dead` default to false under the `!x` tests). -/
structure HackerNewsItem where
  id : Nat
  deleted : Bool
  dead : Bool
  kids : Option (List Nat)
  text : Option String
  itemType : Option String
  deriving Repr, DecidableEq

/-- A materialized tree node: the underlying item's fields (spread `{...item}`) plus
the filtered replies. -/
structure HackerNewsCommentTree where
  item : HackerNewsItem
  replies : List HackerNewsCommentTree
  deriving Repr

/-- The placeholder produced when a child fails to load (src/api.ts lines 370-379):
`{ id: kidId, deleted: true, type: 'comment', text: 'Failed to load comment',
replies: [] }`. -/
def placeholderTree (kidId : Nat) : HackerNewsCommentTree :=
  ⟨⟨kidId, true, false, none, some "Failed to load comment", some "comment"⟩, []⟩

/-- getItemWithComments (src/api.ts lines 336-392).  `resolve` abstracts `getItem`;
a failure of the root's own resolution propagates (`.error`), a failure while
resolving a child is caught and replaced by `placeholderTree`; replies flagged
deleted or dead are filtered out.  The JS base case is
`!item.kids || item.kids.length === 0 || currentDepth >= maxDepth`. -/
def getItemWithComments {ε : Type} (resolve : Nat → Except ε HackerNewsItem)
    (maxDepth currentDepth : Nat) (itemId : Nat) : Except ε HackerNewsCommentTree :=
  match resolve itemId with
  | .error e => .error e
  | .ok item =>
    match item.kids with
    | none => .ok ⟨item, []⟩
    | some kids =>
      if hbase : kids.length = 0 ∨ maxDepth ≤ currentDepth then .ok ⟨item, []⟩
      else
        let replies := kids.map (fun kidId =>
          match getItemWithComments resolve maxDepth (currentDepth + 1) kidId with
          | .ok t => t
          | .error _ => placeholderTree kidId)
        .ok ⟨item, replies.filter (fun r => !r.item.deleted && !r.item.dead)⟩
termination_by maxDepth - currentDepth
decreasing_by
  simp only [not_or, not_le] at hbase
  omega

/-- Concrete resolution function for the C4 witness: item 1 is the root with children
[2, 3, 4]; resolving 3 always fails; 2 and 4 are live comments. -/
def treeScenarioResolve : Nat → Except Unit HackerNewsItem := fun n =>
  if n = 1 then .ok ⟨1, false, false, some [2, 3, 4], none, some "story"⟩
  else if n = 2 then .ok ⟨2, false, false, none, some "first", some "comment"⟩
  else if n = 4 then .ok ⟨4, false, false, none, some "third", some "comment"⟩
  else .error ()

/-! ## Resilient fetch (utilities module, fetchWithRetry)

Cooperative time: the clock counts completed awaits (sleeps and transport calls) of
the run.  `abortAt = some T` models an AbortController whose signal fires at clock T:
every `aborted || init?.signal?.aborted` check executed at clock c sees true iff
T ≤ c (the abort listener just sets the `aborted` flag).  The transport is a function
from call index to outcome, and `rand` supplies the Math.random() draws used by
calculateBackoff, indexed by the clock at which the sleep is computed. -/

/-- The response fields fetchWithRetry consumes: the success flag (`response.ok`),
the status, the statusText, and the parsed integer value of the Retry-After header
(`none` when the header is absent; a header that parses to NaN is treated by the code
exactly like a nonpositive value, so both are modelled by nonpositive integers). -/
structure Resp where
  ok : Bool
  status : Nat
  statusText : String
  retryAfter : Option Int
  deriving Repr, DecidableEq

/-- Outcome of one transport call: a response, or a thrown error.  `isNetwork` says
whether isNetworkError recognizes the thrown error as a retryable network TypeError;
`errId` gives thrown errors an identity so propagation can be stated. -/
inductive TransportResult where
  | resp (r : Resp)
  | exn (isNetwork : Bool) (errId : Nat)
  deriving Repr, DecidableEq

/-- The errors fetchWithRetry can reject with: the AbortError DOMException, the
non-retryable-status Error, the RateLimitError (with its retryAfterSeconds field as
parsed from the Retry-After header by the RateLimitError constructor in
src/errors.ts), the exhausted-retries Error, and a propagated transport error. -/
inductive FetchError where
  | abortError
  | httpError (status : Nat) (statusText : String)
  | rateLimit (status : Nat) (retryAfterSeconds : Option Int)
  | exhausted (status : Nat) (maxRetries : Nat)
  | transport (isNetwork : Bool) (errId : Nat)
  deriving Repr, DecidableEq

/-- Result of a fetchWithRetry run. -/
inductive FetchResult where
  | success (r : Resp)
  | failure (e : FetchError)
  deriving Repr, DecidableEq

/-- Awaits started by the run: a transport call or a sleep, stamped with the clock at
which it started. -/
inductive FetchEvent where
  | fetchStart (clock : Nat) (callIdx : Nat)
  | sleepStart (clock : Nat) (duration : ℚ)
  deriving Repr, DecidableEq

/-- The clock at which an event started. -/
def FetchEvent.clock : FetchEvent → Nat
  | .fetchStart c _ => c
  | .sleepStart c _ => c

/-- Recognizer for transport-call events. -/
def isFetchStart : FetchEvent → Bool
  | .fetchStart _ _ => true
  | .sleepStart _ _ => false

/-- Number of transport calls started in a run. -/
def fetchStarts (evs : List FetchEvent) : Nat := (evs.filter isFetchStart).length

/-- Whether the abort signal has fired by clock c. -/
def abortSeen (abortAt : Option Nat) (c : Nat) : Bool :=
  match abortAt with
  | some t => decide (t ≤ c)
  | none => false

/-! ### The retry loop of fetchWithRetry (utilities module)

The `for (let attempt = 0; attempt <= maxRetries; attempt++)` loop.

gas counts the remaining iterations (maxRetries + 1 - attempt), so the gas-0 branch
is the statically unreachable `throw lastError` after the loop; `lastErr` threads the
source's lastError variable (its exact message in the retrying case differs from the
source's development-only warning text, but it is only ever surfaced on that
unreachable path).

Iteration structure, in the source's order: check abort; if attempt > 0 sleep the
computed backoff and re-check abort (for attempt = 0 the re-check coincides with the
check already done at the same clock); call the transport; on a response: return it
if ok, throw the descriptive error if the status is not retryable, throw
RateLimitError if out of retries on 429, otherwise when retries remain honour a
positive Retry-After by sleeping it (with abort checks before and after) and
continue, or just continue so the next iteration sleeps the backoff; when out of
retries throw the exhausted error; on a thrown transport error: rethrow unless it is
a network error with retryNetworkErrors on and retries remain. -/
mutual

/-- See the module comment above: the loop header (abort check and backoff sleep),
one call per remaining iteration. -/
def fetchLoop (o : RetryOptions) (world : Nat → TransportResult) (abortAt : Option Nat)
    (rand : Nat → ℚ) : Nat → Nat → Nat → Nat → FetchError → FetchResult × List FetchEvent
  | 0, _, _, _, lastErr => (.failure lastErr, [])
  | gas + 1, attempt, clock, callIdx, lastErr =>
    if abortSeen abortAt clock then (.failure .abortError, [])
    else
      let preSleep : List FetchEvent :=
        if 0 < attempt then
          [.sleepStart clock (calculateBackoff (attempt - 1) o (rand clock))]
        else []
      let clock1 := clock + preSleep.length
      if abortSeen abortAt clock1 then (.failure .abortError, preSleep)
      else
        let res := fetchLoopAttempt o world abortAt rand gas attempt clock1 callIdx
        (res.1, preSleep ++ res.2)
  termination_by gas _ _ _ _ => (gas, 0)

/-- The rest of one loop iteration, from the transport call at clock `clock1`
onwards (the returned event list starts with that call's fetchStart event). -/
def fetchLoopAttempt (o : RetryOptions) (world : Nat → TransportResult)
    (abortAt : Option Nat) (rand : Nat → ℚ) (gas attempt clock1 callIdx : Nat) :
    FetchResult × List FetchEvent :=
  let events : List FetchEvent := [.fetchStart clock1 callIdx]
  let clock2 := clock1 + 1
  match world callIdx with
  | .exn net errId =>
    if !o.retryNetworkErrors || !net then (.failure (.transport net errId), events)
    else if attempt < o.maxRetries then
      let rest := fetchLoop o world abortAt rand gas (attempt + 1) clock2 (callIdx + 1)
        (.transport net errId)
      (rest.1, events ++ rest.2)
    else (.failure (.transport net errId), events)
  | .resp r =>
    if r.ok then (.success r, events)
    else if r.status ∉ o.retryableStatusCodes then
      (.failure (.httpError r.status r.statusText), events)
    else if o.maxRetries ≤ attempt ∧ r.status = 429 then
      (.failure (.rateLimit r.status r.retryAfter), events)
    else if attempt < o.maxRetries then
      match r.retryAfter with
      | some ra =>
        if 0 < ra * 1000 then
          if abortSeen abortAt clock2 then (.failure .abortError, events)
          else
            let ev2 := FetchEvent.sleepStart clock2 ((ra : ℚ) * 1000)
            if abortSeen abortAt (clock2 + 1) then
              (.failure .abortError, events ++ [ev2])
            else
              let rest := fetchLoop o world abortAt rand gas (attempt + 1)
                (clock2 + 1) (callIdx + 1) (.httpError r.status r.statusText)
              (rest.1, events ++ [ev2] ++ rest.2)
        else
          let rest := fetchLoop o world abortAt rand gas (attempt + 1) clock2
            (callIdx + 1) (.httpError r.status r.statusText)
          (rest.1, events ++ rest.2)
      | none =>
        let rest := fetchLoop o world abortAt rand gas (attempt + 1) clock2
          (callIdx + 1) (.httpError r.status r.statusText)
        (rest.1, events ++ rest.2)
    else
      (.failure (.exhausted r.status o.maxRetries), events)
  termination_by (gas, 1)

end

/-- The retry-options argument of fetchWithRetry: undefined (defaults), the literal
`false` (retry disabled), or an options object (modelled after merging with
DEFAULT_RETRY_OPTIONS, which is what the source does first). -/
inductive RetryArg where
  | defaults
  | disabled
  | withOptions (o : RetryOptions)
  deriving Repr, DecidableEq

/-- fetchWithRetry (utilities module): check `init?.signal?.aborted` up front; if the
options argument is exactly false, perform one raw `fetch` call and hand its outcome
back untouched; otherwise run the retry loop on the merged options. -/
def fetchWithRetry (arg : RetryArg) (world : Nat → TransportResult)
    (abortAt : Option Nat) (rand : Nat → ℚ) : FetchResult × List FetchEvent :=
  if abortSeen abortAt 0 then (.failure .abortError, [])
  else
    match arg with
    | .disabled =>
      (match world 0 with
       | .resp r => (.success r, [.fetchStart 0 0])
       | .exn net errId => (.failure (.transport net errId), [.fetchStart 0 0]))
    | .defaults =>
      fetchLoop DEFAULT_RETRY_OPTIONS world abortAt rand
        (DEFAULT_RETRY_OPTIONS.maxRetries + 1) 0 0 0 (.transport false 0)
    | .withOptions o =>
      fetchLoop o world abortAt rand (o.maxRetries + 1) 0 0 0 (.transport false 0)

/-! ### Association-list lemmas for the Map model -/

theorem mapGet_mapSet_self {α : Type} (m : List (String × α)) (k : String) (v : α) :
    mapGet (mapSet m k v) k = some v := by
  induction m with
  | nil => simp [mapGet, mapSet]
  | cons hd tl ih =>
    obtain ⟨k', v'⟩ := hd
    by_cases h : k' = k
    · simp [mapGet, mapSet, h]
    · simp [mapGet, mapSet, h, ih]

theorem keys_mapDelete {α : Type} (m : List (String × α)) (k : String) :
    (mapDelete m k).map Prod.fst = (m.map Prod.fst).erase k := by
  induction m with
  | nil => rfl
  | cons hd tl ih =>
    obtain ⟨k', v'⟩ := hd
    by_cases h : k' = k
    · simp [mapDelete, h, List.erase_cons]
    · simp [mapDelete, h, List.erase_cons, ih]

theorem length_mapDelete_of_mem {α : Type} {m : List (String × α)} {k : String}
    (h : k ∈ m.map Prod.fst) : (mapDelete m k).length = m.length - 1 := by
  have hkeys := congrArg List.length (keys_mapDelete m k)
  simpa [List.length_erase_of_mem h] using hkeys

theorem mem_keys_mapSet {α : Type} {m : List (String × α)} {k a : String} {v : α}
    (h : a ∈ (mapSet m k v).map Prod.fst) : a ∈ m.map Prod.fst ∨ a = k := by
  induction m with
  | nil =>
    right
    simpa [mapSet] using h
  | cons hd tl ih =>
    obtain ⟨k', v'⟩ := hd
    by_cases hk : k' = k
    · subst hk
      simp only [mapSet, if_pos rfl, List.map_cons, List.mem_cons] at h
      left
      simpa using h
    · simp only [mapSet, if_neg hk, List.map_cons, List.mem_cons] at h
      rcases h with h | h
      · left; simp [h]
      · rcases ih h with h' | h'
        · left; simp [h']
        · right; exact h'

theorem nodup_keys_mapSet {α : Type} {m : List (String × α)} (k : String) (v : α)
    (hnd : (m.map Prod.fst).Nodup) : ((mapSet m k v).map Prod.fst).Nodup := by
  induction m with
  | nil => simp [mapSet]
  | cons hd tl ih =>
    obtain ⟨k', v'⟩ := hd
    simp only [List.map_cons, List.nodup_cons] at hnd
    by_cases hk : k' = k
    · subst hk
      simpa [mapSet, List.nodup_cons] using hnd
    · simp only [mapSet, if_neg hk, List.map_cons, List.nodup_cons]
      refine ⟨?_, ih hnd.2⟩
      intro hmem
      rcases mem_keys_mapSet hmem with h' | h'
      · exact hnd.1 h'
      · exact hk h'

/-! ### Claim C1: single-flight de-duplication of concurrent misses -/

theorem getN_awaitExisting {T : Type} (opts : CacheOptions) (times : Nat → Int)
    (key : String) (pid : Nat) (n : Nat) (st : CacheState T)
    (hc : mapGet st.cache key = none) (hp : mapGet st.fetchPromises key = some pid) :
    Cache.getN opts times key n st
      = (List.replicate n (Cache.GetOutcome.awaitExisting pid), st) := by
  induction n with
  | zero => simp [Cache.getN]
  | succ n ih =>
    simp [Cache.getN, Cache.getSync, Cache.getSyncMiss, hc, hp, ih, List.replicate_succ]

/-- Claim C1: single-flight.  For a key with no cache entry and no in-flight fetch, N
concurrent get calls issued before the load settles invoke the loader exactly once;
the first call starts the fetch promise and every other call awaits that same
promise, and when the loader's value arrives all of them resolve with it. -/
theorem single_flight {T : Type} (opts : CacheOptions) (times : Nat → Int) (key : String)
    (st0 : CacheState T) (N : Nat) (v : T) (now : Int) (hN : 1 ≤ N)
    (hc : mapGet st0.cache key = none) (hp : mapGet st0.fetchPromises key = none) :
    (Cache.getN opts times key N st0).1
      = Cache.GetOutcome.startedBlocking st0.nextPromiseId
          :: List.replicate (N - 1) (Cache.GetOutcome.awaitExisting st0.nextPromiseId)
    ∧ (Cache.getN opts times key N st0).2.loaderCalls = st0.loaderCalls + 1
    ∧ (st0.nextPromiseId, v) ∈
        (Cache.fetchSettleSuccess opts key st0.nextPromiseId v now
          (Cache.getN opts times key N st0).2).resolved := by
  obtain ⟨n, rfl⟩ : ∃ n, N = n + 1 := ⟨N - 1, by omega⟩
  have hstep :
      Cache.getSync opts (times n) key st0
        = (Cache.GetOutcome.startedBlocking st0.nextPromiseId,
           { st0 with
              loaderCalls := st0.loaderCalls + 1
              nextPromiseId := st0.nextPromiseId + 1
              fetchPromises := mapSet st0.fetchPromises key st0.nextPromiseId }) := by
    simp [Cache.getSync, Cache.getSyncMiss, Cache.fetchAndCacheStart, hc, hp]
  have hrest := getN_awaitExisting opts times key st0.nextPromiseId n
      { st0 with
          loaderCalls := st0.loaderCalls + 1
          nextPromiseId := st0.nextPromiseId + 1
          fetchPromises := mapSet st0.fetchPromises key st0.nextPromiseId }
      (by simpa using hc) (by simpa using mapGet_mapSet_self st0.fetchPromises key st0.nextPromiseId)
  refine ⟨?_, ?_, ?_⟩
  · simp [Cache.getN, hstep, hrest]
  · simp [Cache.getN, hstep, hrest]
  · simp [Cache.getN, hstep, hrest, Cache.fetchSettleSuccess]

/-- Witness for C1: three concurrent gets on a cold key. -/
theorem single_flight_witness :
    (Cache.getN (⟨100, 200, none⟩ : CacheOptions) (fun _ => 0) "k" 3
        (⟨[], [], 0, 0, []⟩ : CacheState Nat)).1
      = Cache.GetOutcome.startedBlocking 0
          :: List.replicate 2 (Cache.GetOutcome.awaitExisting 0)
    ∧ (Cache.getN (⟨100, 200, none⟩ : CacheOptions) (fun _ => 0) "k" 3
        (⟨[], [], 0, 0, []⟩ : CacheState Nat)).2.loaderCalls = 0 + 1
    ∧ ((0 : Nat), (7 : Nat)) ∈
        (Cache.fetchSettleSuccess (⟨100, 200, none⟩ : CacheOptions) "k" 0 7 5
          (Cache.getN (⟨100, 200, none⟩ : CacheOptions) (fun _ => 0) "k" 3
            (⟨[], [], 0, 0, []⟩ : CacheState Nat)).2).resolved :=
  single_flight (⟨100, 200, none⟩ : CacheOptions) (fun _ => 0) "k"
    (⟨[], [], 0, 0, []⟩ : CacheState Nat) 3 7 5 (by decide) (by decide) (by decide)

/-! ### Claim C2: stale-while-revalidate de-duplication (refuted)

The stale branch of get (src/cache.ts lines 93-105) calls refreshInBackground, and
refreshInBackground (lines 156-167) calls fetchAndCache unconditionally: neither
consults `fetchPromises` before starting a new load, so every stale-band get starts
its own background revalidation and overwrites the in-flight record. -/

/-- Counterexample to C2 as stated: entry written at t = 0 with maxAge 100 and
staleWhileRevalidate 200; stale-band gets at t = 150 and t = 160 (before the first
background load settles) both return the stale value, but the loader is invoked
twice, not once (and a second, distinct fetch promise overwrites the first). -/
theorem stale_revalidate_dedup_cex :
    (Cache.getSync (⟨100, 200, none⟩ : CacheOptions) 150 "k"
        (⟨[("k", ⟨(7 : Nat), 0, 0⟩)], [], 0, 0, []⟩ : CacheState Nat)).1
      = Cache.GetOutcome.hitStale 7 0
    ∧ (Cache.getSync (⟨100, 200, none⟩ : CacheOptions) 160 "k"
        (Cache.getSync (⟨100, 200, none⟩ : CacheOptions) 150 "k"
          (⟨[("k", ⟨(7 : Nat), 0, 0⟩)], [], 0, 0, []⟩ : CacheState Nat)).2).1
      = Cache.GetOutcome.hitStale 7 1
    ∧ ¬ (Cache.getSync (⟨100, 200, none⟩ : CacheOptions) 160 "k"
        (Cache.getSync (⟨100, 200, none⟩ : CacheOptions) 150 "k"
          (⟨[("k", ⟨(7 : Nat), 0, 0⟩)], [], 0, 0, []⟩ : CacheState Nat)).2).2.loaderCalls = 1 := by
  decide

/-- Claim C2 amended: a stale-band get returns the currently cached stale value
immediately, but it always starts a new background revalidation, whether or not one
is already in flight (the new promise overwrites the in-flight record); consequently
two stale-band gets made before the first background load settles invoke the loader
twice in total. -/
theorem stale_revalidate_always {T : Type} (opts : CacheOptions) (key : String)
    (st : CacheState T) (e : CacheEntry T) (now now2 : Int)
    (he : mapGet st.cache key = some e)
    (h1 : opts.maxAge ≤ now - e.timestamp)
    (h2 : now - e.timestamp < opts.staleWhileRevalidate)
    (h1' : opts.maxAge ≤ now2 - e.timestamp)
    (h2' : now2 - e.timestamp < opts.staleWhileRevalidate) :
    (Cache.getSync opts now key st).1 = Cache.GetOutcome.hitStale e.data st.nextPromiseId
    ∧ mapGet (Cache.getSync opts now key st).2.fetchPromises key = some st.nextPromiseId
    ∧ (Cache.getSync opts now2 key (Cache.getSync opts now key st).2).1
        = Cache.GetOutcome.hitStale e.data (st.nextPromiseId + 1)
    ∧ (Cache.getSync opts now2 key (Cache.getSync opts now key st).2).2.loaderCalls
        = st.loaderCalls + 2 := by
  have hfirst :
      Cache.getSync opts now key st
        = (Cache.GetOutcome.hitStale e.data st.nextPromiseId,
           { st with
              loaderCalls := st.loaderCalls + 1
              nextPromiseId := st.nextPromiseId + 1
              fetchPromises := mapSet st.fetchPromises key st.nextPromiseId
              cache := mapSet st.cache key { e with lastAccessed := now } }) := by
    simp [Cache.getSync, Cache.fetchAndCacheStart, he, not_lt.mpr h1, h2]
  have he2 : mapGet (mapSet st.cache key { e with lastAccessed := now }) key
      = some { e with lastAccessed := now } := mapGet_mapSet_self _ _ _
  have hsecond :
      Cache.getSync opts now2 key
        { st with
            loaderCalls := st.loaderCalls + 1
            nextPromiseId := st.nextPromiseId + 1
            fetchPromises := mapSet st.fetchPromises key st.nextPromiseId
            cache := mapSet st.cache key { e with lastAccessed := now } }
      = (Cache.GetOutcome.hitStale e.data (st.nextPromiseId + 1),
         { st with
            loaderCalls := st.loaderCalls + 2
            nextPromiseId := st.nextPromiseId + 2
            fetchPromises :=
              mapSet (mapSet st.fetchPromises key st.nextPromiseId) key (st.nextPromiseId + 1)
            cache := mapSet (mapSet st.cache key { e with lastAccessed := now }) key
              { e with lastAccessed := now2 } }) := by
    simp [Cache.getSync, Cache.fetchAndCacheStart, he2, not_lt.mpr h1', h2']
  refine ⟨by simp [hfirst], ?_, ?_, ?_⟩
  · simp [hfirst, mapGet_mapSet_self]
  · simp [hfirst, hsecond]
  · simp [hfirst, hsecond]

/-- Witness for C2's amended statement at the counterexample scenario. -/
theorem stale_revalidate_always_witness :
    (Cache.getSync (⟨100, 200, none⟩ : CacheOptions) 150 "k"
        (⟨[("k", ⟨(7 : Nat), 0, 0⟩)], [], 3, 0, []⟩ : CacheState Nat)).1
      = Cache.GetOutcome.hitStale 7 3
    ∧ mapGet (Cache.getSync (⟨100, 200, none⟩ : CacheOptions) 150 "k"
        (⟨[("k", ⟨(7 : Nat), 0, 0⟩)], [], 3, 0, []⟩ : CacheState Nat)).2.fetchPromises "k"
      = some 3
    ∧ (Cache.getSync (⟨100, 200, none⟩ : CacheOptions) 160 "k"
        (Cache.getSync (⟨100, 200, none⟩ : CacheOptions) 150 "k"
          (⟨[("k", ⟨(7 : Nat), 0, 0⟩)], [], 3, 0, []⟩ : CacheState Nat)).2).1
      = Cache.GetOutcome.hitStale 7 4
    ∧ (Cache.getSync (⟨100, 200, none⟩ : CacheOptions) 160 "k"
        (Cache.getSync (⟨100, 200, none⟩ : CacheOptions) 150 "k"
          (⟨[("k", ⟨(7 : Nat), 0, 0⟩)], [], 3, 0, []⟩ : CacheState Nat)).2).2.loaderCalls
      = 0 + 2 :=
  stale_revalidate_always (⟨100, 200, none⟩ : CacheOptions) "k"
    (⟨[("k", ⟨(7 : Nat), 0, 0⟩)], [], 3, 0, []⟩ : CacheState Nat) ⟨7, 0, 0⟩ 150 160
    (by decide) (by decide) (by decide) (by decide) (by decide)

/-! ### Claim C3: invalidate is no-store-on-next-settle (refuted)

invalidate (src/cache.ts lines 131-134) removes the entry and the in-flight record,
but the IIFE inside fetchAndCache (lines 172-197) stores its result unconditionally
when the in-flight load settles, so the result IS cached. -/

/-- Counterexample to C3 as stated: a blocking load for "k" is started (promise 0),
invalidate("k") runs while it is in flight, and then the load settles with value 7 at
t = 50.  The awaiting consumer does resolve with 7, but contrary to the claim the
cache then holds an entry for "k" again. -/
theorem invalidate_no_store_cex :
    (Cache.getSync (⟨100, 200, none⟩ : CacheOptions) 0 "k"
        (⟨[], [], 0, 0, []⟩ : CacheState Nat)).1
      = Cache.GetOutcome.startedBlocking 0
    ∧ ((0 : Nat), (7 : Nat)) ∈
        (Cache.fetchSettleSuccess (⟨100, 200, none⟩ : CacheOptions) "k" 0 7 50
          (Cache.invalidate "k"
            (Cache.getSync (⟨100, 200, none⟩ : CacheOptions) 0 "k"
              (⟨[], [], 0, 0, []⟩ : CacheState Nat)).2)).resolved
    ∧ ¬ mapGet (Cache.fetchSettleSuccess (⟨100, 200, none⟩ : CacheOptions) "k" 0 7 50
          (Cache.invalidate "k"
            (Cache.getSync (⟨100, 200, none⟩ : CacheOptions) 0 "k"
              (⟨[], [], 0, 0, []⟩ : CacheState Nat)).2)).cache "k" = none := by
  decide

/-- Claim C3 amended: if invalidate(key) runs while a load for key is in flight, every
consumer awaiting that load still completes normally with the load's result, but the
result IS stored: when the load settles, the cache again holds an entry for key with
the loaded value (invalidate removes only the current entry and in-flight record; it
does not prevent the in-flight fetch from caching its result).  Stated for an
unbounded cache so that the fresh entry cannot be evicted in the same step. -/
theorem invalidate_then_settle {T : Type} (opts : CacheOptions) (key : String)
    (pid : Nat) (data : T) (now : Int) (st : CacheState T)
    (hopts : opts.maxEntries = none) :
    ((pid, data) ∈
        (Cache.fetchSettleSuccess opts key pid data now (Cache.invalidate key st)).resolved)
    ∧ mapGet (Cache.fetchSettleSuccess opts key pid data now
        (Cache.invalidate key st)).cache key = some ⟨data, now, now⟩ := by
  constructor
  · simp [Cache.fetchSettleSuccess]
  · simp [Cache.fetchSettleSuccess, Cache.invalidate, Cache.evictLRUIfNeeded, hopts,
      mapGet_mapSet_self]

/-- Witness for C3's amended statement at the counterexample scenario. -/
theorem invalidate_then_settle_witness :
    (((0 : Nat), (7 : Nat)) ∈
        (Cache.fetchSettleSuccess (⟨100, 200, none⟩ : CacheOptions) "k" 0 7 50
          (Cache.invalidate "k"
            (⟨[], [("k", 0)], 1, 1, []⟩ : CacheState Nat))).resolved)
    ∧ mapGet (Cache.fetchSettleSuccess (⟨100, 200, none⟩ : CacheOptions) "k" 0 7 50
        (Cache.invalidate "k"
          (⟨[], [("k", 0)], 1, 1, []⟩ : CacheState Nat))).cache "k"
      = some ⟨7, 50, 50⟩ :=
  invalidate_then_settle (⟨100, 200, none⟩ : CacheOptions) "k" 0 7 50
    (⟨[], [("k", 0)], 1, 1, []⟩ : CacheState Nat) rfl

/-! ### Claim C8: LRU capacity invariant -/

theorem mapDelete_sublist {α : Type} (m : List (String × α)) (k : String) :
    List.Sublist (mapDelete m k) m := by
  induction m with
  | nil => simp [mapDelete]
  | cons hd tl ih =>
    obtain ⟨k', v'⟩ := hd
    by_cases h : k' = k
    · simp [mapDelete, h]
    · simpa [mapDelete, h] using ih.cons₂ (k', v')

theorem foldl_mapDelete_sublist {α γ : Type} (ps : List (String × γ)) :
    ∀ c : List (String × α),
      List.Sublist (ps.foldl (fun acc e => mapDelete acc e.1) c) c := by
  induction ps with
  | nil => intro c; simp
  | cons p ps ih =>
    intro c
    simpa using (ih (mapDelete c p.1)).trans (mapDelete_sublist c p.1)

theorem foldl_mapDelete_length {α γ : Type} :
    ∀ (ps : List (String × γ)) (c : List (String × α)),
      (ps.map Prod.fst).Nodup → (∀ p ∈ ps, p.1 ∈ c.map Prod.fst) →
      (ps.foldl (fun acc e => mapDelete acc e.1) c).length = c.length - ps.length := by
  intro ps
  induction ps with
  | nil => intro c _ _; simp
  | cons p ps ih =>
    intro c hnd hsub
    simp only [List.map_cons, List.nodup_cons] at hnd
    have hmem : p.1 ∈ c.map Prod.fst := hsub p (List.mem_cons_self _ _)
    have hlen := length_mapDelete_of_mem (m := c) (k := p.1) hmem
    have hsub' : ∀ q ∈ ps, q.1 ∈ (mapDelete c p.1).map Prod.fst := by
      intro q hq
      rw [keys_mapDelete]
      have hne : q.1 ≠ p.1 := by
        intro he
        exact hnd.1 (he ▸ List.mem_map_of_mem Prod.fst hq)
      exact (List.mem_erase_of_ne hne).mpr (hsub q (List.mem_cons_of_mem _ hq))
    have hc1 : 1 ≤ c.length := by
      rcases c with _ | _
      · simp at hmem
      · simp
    have hrec := ih (mapDelete c p.1) hnd.2 hsub'
    simp only [List.foldl_cons]
    rw [hrec, hlen]
    simp only [List.length_cons]
    omega

/-- Keys not slated for deletion survive the fold of deletes. -/
theorem mem_keys_foldl_mapDelete {α γ : Type} :
    ∀ (ps : List (String × γ)) (c : List (String × α)) (k : String),
      k ∈ c.map Prod.fst → k ∉ ps.map Prod.fst →
      k ∈ (ps.foldl (fun acc e => mapDelete acc e.1) c).map Prod.fst := by
  intro ps
  induction ps with
  | nil => intro c k hk _; simpa using hk
  | cons p ps ih =>
    intro c k hk hnot
    simp only [List.map_cons, List.mem_cons, not_or] at hnot
    simp only [List.foldl_cons]
    refine ih (mapDelete c p.1) k ?_ hnot.2
    rw [keys_mapDelete]
    exact (List.mem_erase_of_ne hnot.1).mpr hk

/-- Keys slated for deletion do not survive the fold of deletes (keys unique). -/
theorem not_mem_keys_foldl_mapDelete {α γ : Type} :
    ∀ (ps : List (String × γ)) (c : List (String × α)) (k : String),
      (c.map Prod.fst).Nodup → k ∈ ps.map Prod.fst →
      k ∉ (ps.foldl (fun acc e => mapDelete acc e.1) c).map Prod.fst := by
  intro ps
  induction ps with
  | nil => intro c k _ hk; simp at hk
  | cons p ps ih =>
    intro c k hnd hk
    simp only [List.foldl_cons]
    have hndd : ((mapDelete c p.1).map Prod.fst).Nodup := by
      rw [keys_mapDelete]; exact hnd.erase _
    simp only [List.map_cons, List.mem_cons] at hk
    rcases hk with hk | hk
    · intro habs
      have hsubkeys : (ps.foldl (fun acc e => mapDelete acc e.1) (mapDelete c p.1)).map Prod.fst
          ⊆ (mapDelete c p.1).map Prod.fst :=
        ((foldl_mapDelete_sublist ps (mapDelete c p.1)).map Prod.fst).subset
      have hkin : k ∈ (mapDelete c p.1).map Prod.fst := hsubkeys habs
      rw [keys_mapDelete] at hkin
      exact ((List.Nodup.mem_erase_iff hnd).mp hkin).1 hk
    · exact ih (mapDelete c p.1) k hndd hk

/-- In a list with unique keys, two members with the same key are the same pair. -/
theorem eq_of_same_key {β : Type} :
    ∀ (l : List (String × β)), (l.map Prod.fst).Nodup →
      ∀ p ∈ l, ∀ q ∈ l, p.1 = q.1 → p = q := by
  intro l
  induction l with
  | nil => intro _ p hp; simp at hp
  | cons a tl ih =>
    intro hnd p hp q hq hkey
    simp only [List.map_cons, List.nodup_cons] at hnd
    simp only [List.mem_cons] at hp hq
    rcases hp with hp | hp <;> rcases hq with hq | hq
    · rw [hp, hq]
    · exfalso
      apply hnd.1
      rw [← hp, hkey]
      exact List.mem_map_of_mem Prod.fst hq
    · exfalso
      apply hnd.1
      rw [← hq, ← hkey]
      exact List.mem_map_of_mem Prod.fst hp
    · exact ih hnd.2 p hp q hq hkey

/-- Unfolding equation of evictLRUIfNeeded for an absent capacity. -/
theorem evictLRUIfNeeded_none {T : Type} {opts : CacheOptions}
    (c : List (String × CacheEntry T)) (h : opts.maxEntries = none) :
    Cache.evictLRUIfNeeded opts c = c := by
  unfold Cache.evictLRUIfNeeded
  rw [h]

/-- Unfolding equation of evictLRUIfNeeded for a present capacity. -/
theorem evictLRUIfNeeded_some {T : Type} {opts : CacheOptions} {m : Nat}
    (c : List (String × CacheEntry T)) (h : opts.maxEntries = some m) :
    Cache.evictLRUIfNeeded opts c =
      if m = 0 ∨ c.length ≤ m then c
      else
        ((((c.map (fun kv => (kv.1, kv.2.lastAccessed))).insertionSort
            (fun a b => a.2 ≤ b.2)).take (c.length - m)).foldl
          (fun acc e => mapDelete acc e.1) c) := by
  unfold Cache.evictLRUIfNeeded
  rw [h]

/-- The entries evicted by evictLRUIfNeeded all have lastAccessed no larger than any
surviving entry's lastAccessed (oldest-accessed-first removal). -/
theorem evict_removed_minimal {T : Type} (opts : CacheOptions)
    (c : List (String × CacheEntry T)) (hnd : (c.map Prod.fst).Nodup)
    (x : String × CacheEntry T) (hx : x ∈ c)
    (hxgone : x.1 ∉ (Cache.evictLRUIfNeeded opts c).map Prod.fst)
    (y : String × CacheEntry T) (hy : y ∈ Cache.evictLRUIfNeeded opts c) :
    x.2.lastAccessed ≤ y.2.lastAccessed := by
  have hxkey : x.1 ∈ c.map Prod.fst := List.mem_map_of_mem Prod.fst hx
  rcases hmE : opts.maxEntries with _ | m
  · rw [evictLRUIfNeeded_none c hmE] at hxgone
    exact absurd hxkey hxgone
  rw [evictLRUIfNeeded_some c hmE] at hxgone hy
  by_cases hguard : m = 0 ∨ c.length ≤ m
  · rw [if_pos hguard] at hxgone
    exact absurd hxkey hxgone
  rw [if_neg hguard] at hxgone hy
  haveI : IsTotal (String × Int) (fun a b => a.2 ≤ b.2) := ⟨fun a b => le_total a.2 b.2⟩
  haveI : IsTrans (String × Int) (fun a b => a.2 ≤ b.2) := ⟨fun _ _ _ h1 h2 => le_trans h1 h2⟩
  set proj := c.map (fun kv => (kv.1, kv.2.lastAccessed)) with hproj
  set entries := proj.insertionSort (fun a b => a.2 ≤ b.2) with hentries
  set r := c.length - m with hr
  have hperm : List.Perm entries proj := List.perm_insertionSort _ _
  have hprojkeys : proj.map Prod.fst = c.map Prod.fst := by
    rw [hproj, List.map_map]
    rfl
  have hndentries : (entries.map Prod.fst).Nodup :=
    ((hperm.map Prod.fst).nodup_iff).mpr (hprojkeys ▸ hnd)
  have hsorted : List.Sorted (fun a b : String × Int => a.2 ≤ b.2) entries :=
    List.sorted_insertionSort _ _
  -- the projection of x is in the removed prefix of the sorted list
  have hxproj : (x.1, x.2.lastAccessed) ∈ entries :=
    hperm.mem_iff.mpr (List.mem_map_of_mem (fun kv => (kv.1, kv.2.lastAccessed)) hx)
  have hxtake : (x.1, x.2.lastAccessed) ∈ entries.take r := by
    by_contra habs
    apply hxgone
    apply mem_keys_foldl_mapDelete (entries.take r) c x.1 hxkey
    intro hxin
    rcases List.mem_map.mp hxin with ⟨q, hqmem, hqkey⟩
    have hqent : q ∈ entries := (List.take_sublist _ _).subset hqmem
    have : q = (x.1, x.2.lastAccessed) :=
      eq_of_same_key entries hndentries q hqent (x.1, x.2.lastAccessed) hxproj (by simp [hqkey])
    exact habs (this ▸ hqmem)
  -- the projection of y is in the kept suffix of the sorted list
  have hyc : y ∈ c := (foldl_mapDelete_sublist (entries.take r) c).subset hy
  have hyproj : (y.1, y.2.lastAccessed) ∈ entries :=
    hperm.mem_iff.mpr (List.mem_map_of_mem (fun kv => (kv.1, kv.2.lastAccessed)) hyc)
  have hykey : y.1 ∈ (((entries.take r).foldl (fun acc e => mapDelete acc e.1) c).map Prod.fst) :=
    List.mem_map_of_mem Prod.fst hy
  have hydrop : (y.1, y.2.lastAccessed) ∈ entries.drop r := by
    have := (List.take_append_drop r entries) ▸ hyproj
    rcases List.mem_append.mp this with hin | hin
    · exfalso
      have hdel : y.1 ∈ (entries.take r).map Prod.fst :=
        List.mem_map_of_mem Prod.fst hin
      exact not_mem_keys_foldl_mapDelete (entries.take r) c y.1 hnd hdel hykey
    · exact hin
  exact hsorted.rel_of_mem_take_of_mem_drop hxtake hydrop

/-- After eviction the cache size is at most the configured capacity (capacity set and
nonzero: the source guards with the JS truthiness test `!maxEntries`). -/
theorem evictLRUIfNeeded_length_le {T : Type} (opts : CacheOptions) (m : Nat)
    (hm : opts.maxEntries = some m) (hm0 : m ≠ 0)
    (c : List (String × CacheEntry T)) (hnd : (c.map Prod.fst).Nodup) :
    (Cache.evictLRUIfNeeded opts c).length ≤ m := by
  rw [evictLRUIfNeeded_some c hm]
  by_cases hle : c.length ≤ m
  · rw [if_pos (Or.inr hle)]
    exact hle
  · rw [if_neg (by push_neg; exact ⟨hm0, by omega⟩)]
    haveI : IsTotal (String × Int) (fun a b => a.2 ≤ b.2) := ⟨fun a b => le_total a.2 b.2⟩
    haveI : IsTrans (String × Int) (fun a b => a.2 ≤ b.2) := ⟨fun _ _ _ h1 h2 => le_trans h1 h2⟩
    set proj := c.map (fun kv => (kv.1, kv.2.lastAccessed)) with hproj
    set entries := proj.insertionSort (fun a b => a.2 ≤ b.2) with hentries
    have hperm : List.Perm entries proj := List.perm_insertionSort _ _
    have hprojkeys : proj.map Prod.fst = c.map Prod.fst := by
      rw [hproj, List.map_map]
      rfl
    have hndentries : (entries.map Prod.fst).Nodup :=
      ((hperm.map Prod.fst).nodup_iff).mpr (hprojkeys ▸ hnd)
    have hndtake : (((entries.take (c.length - m)).map Prod.fst)).Nodup := by
      rw [List.map_take]
      exact (List.take_sublist _ _).nodup hndentries
    have hsub : ∀ p ∈ entries.take (c.length - m), p.1 ∈ c.map Prod.fst := by
      intro p hp
      have hpe : p ∈ entries := (List.take_sublist _ _).subset hp
      have hpp : p ∈ proj := hperm.mem_iff.mp hpe
      rw [← hprojkeys]
      exact List.mem_map_of_mem Prod.fst hpp
    have hlen := foldl_mapDelete_length (entries.take (c.length - m)) c hndtake hsub
    have hentlen : entries.length = c.length := by
      rw [hperm.length_eq, hproj, List.length_map]
    have htklen : (entries.take (c.length - m)).length = c.length - m := by
      rw [List.length_take, hentlen]
      omega
    rw [hlen, htklen]
    omega

/-- Claim C8: LRU capacity invariant.  After a successful cache write with capacity
m set (nonzero), the entry count is at most m and the removed entries all have
lastAccessed no larger than any survivor's; concretely, with capacity 3: inserting
A, B, C, re-accessing A, then inserting D evicts exactly B, while A, C and D remain
retrievable as fresh hits with no further loader invocations. -/
theorem lru_capacity {T : Type} (opts : CacheOptions) (m : Nat) (st : CacheState T)
    (key : String) (pid : Nat) (data : T) (now : Int)
    (hm : opts.maxEntries = some m) (hm0 : m ≠ 0)
    (hnd : (st.cache.map Prod.fst).Nodup) :
    (Cache.fetchSettleSuccess opts key pid data now st).cache.length ≤ m
    ∧ (∀ x ∈ mapSet st.cache key ⟨data, now, now⟩,
        x.1 ∉ (Cache.fetchSettleSuccess opts key pid data now st).cache.map Prod.fst →
        ∀ y ∈ (Cache.fetchSettleSuccess opts key pid data now st).cache,
          x.2.lastAccessed ≤ y.2.lastAccessed)
    ∧ (mapGet lruScenario.cache "B" = none
        ∧ mapGet lruScenario.cache "A" = some ⟨10, 1, 6⟩
        ∧ mapGet lruScenario.cache "C" = some ⟨30, 5, 5⟩
        ∧ mapGet lruScenario.cache "D" = some ⟨40, 8, 8⟩
        ∧ lruScenario.loaderCalls = 4
        ∧ (Cache.getSync lruOpts 9 "A" lruScenario).1 = Cache.GetOutcome.hitFresh 10
        ∧ (Cache.getSync lruOpts 9 "C"
            (Cache.getSync lruOpts 9 "A" lruScenario).2).1 = Cache.GetOutcome.hitFresh 30
        ∧ (Cache.getSync lruOpts 9 "D"
            (Cache.getSync lruOpts 9 "C"
              (Cache.getSync lruOpts 9 "A" lruScenario).2).2).1 = Cache.GetOutcome.hitFresh 40
        ∧ (Cache.getSync lruOpts 9 "D"
            (Cache.getSync lruOpts 9 "C"
              (Cache.getSync lruOpts 9 "A" lruScenario).2).2).2.loaderCalls = 4) := by
  have hndset : ((mapSet st.cache key (⟨data, now, now⟩ : CacheEntry T)).map Prod.fst).Nodup :=
    nodup_keys_mapSet key _ hnd
  refine ⟨?_, ?_, by decide⟩
  · exact evictLRUIfNeeded_length_le opts m hm hm0 _ hndset
  · intro x hx hxgone y hy
    exact evict_removed_minimal opts _ hndset x hx hxgone y hy

/-- Witness for C8: a single write into an empty cache with capacity 3. -/
theorem lru_capacity_witness :
    (Cache.fetchSettleSuccess lruOpts "X" 0 5 0
        (⟨[], [], 1, 1, []⟩ : CacheState Nat)).cache.length ≤ 3 :=
  (lru_capacity lruOpts 3 (⟨[], [], 1, 1, []⟩ : CacheState Nat) "X" 0 5 0 rfl
    (by decide) (by decide)).1

/-- Claim C5: backoff arithmetic.  With jitter 0 the delay is exactly
min(maxBackoff, initialBackoff * backoffFactor ^ n); with jitter j and any value of
the random draw in [0, 1] the delay lies within [base * (1 - j), base * (1 + j)] for
base = min(maxBackoff, initialBackoff * backoffFactor ^ n), is never negative, and
never exceeds maxBackoff * (1 + j). -/
theorem calculateBackoff_spec (o : RetryOptions) (n : Nat) (rand : ℚ)
    (hib : 0 ≤ o.initialBackoff) (hbf : 0 ≤ o.backoffFactor) (hmb : 0 ≤ o.maxBackoff)
    (hj0 : 0 ≤ o.jitter) (hj1 : o.jitter ≤ 1) (hr0 : 0 ≤ rand) (hr1 : rand ≤ 1) :
    (o.jitter = 0 →
      calculateBackoff n o rand = min o.maxBackoff (o.initialBackoff * o.backoffFactor ^ n))
    ∧ min o.maxBackoff (o.initialBackoff * o.backoffFactor ^ n) * (1 - o.jitter)
        ≤ calculateBackoff n o rand
    ∧ calculateBackoff n o rand
        ≤ min o.maxBackoff (o.initialBackoff * o.backoffFactor ^ n) * (1 + o.jitter)
    ∧ 0 ≤ calculateBackoff n o rand
    ∧ calculateBackoff n o rand ≤ o.maxBackoff * (1 + o.jitter) := by
  have hb : 0 ≤ o.initialBackoff * o.backoffFactor ^ n :=
    mul_nonneg hib (pow_nonneg hbf n)
  set b := o.initialBackoff * o.backoffFactor ^ n with hbdef
  set j := o.jitter with hjdef
  have hrf_lo : 1 - j ≤ 1 - j + rand * (2 * j) := by nlinarith
  have hrf_hi : 1 - j + rand * (2 * j) ≤ 1 + j := by nlinarith
  have hrf_nonneg : 0 ≤ 1 - j + rand * (2 * j) := by nlinarith
  have hmin_nonneg : 0 ≤ min o.maxBackoff b := le_min hmb hb
  have hmin_le_b : min o.maxBackoff b ≤ b := min_le_right _ _
  have hmin_le_M : min o.maxBackoff b ≤ o.maxBackoff := min_le_left _ _
  refine ⟨?_, ?_, ?_, ?_, ?_⟩
  · intro hj
    have hone : (1 : ℚ) - o.jitter + rand * (2 * o.jitter) = 1 := by
      rw [show o.jitter = 0 from hj]; ring
    simp only [calculateBackoff, hone, mul_one]
    exact min_comm _ _
  · -- lower bound: both arms of the min are ≥ base * (1 - j)
    simp only [calculateBackoff]
    apply le_min
    · calc min o.maxBackoff b * (1 - j) ≤ b * (1 - j) := by nlinarith
        _ ≤ b * (1 - j + rand * (2 * j)) := by nlinarith
    · calc min o.maxBackoff b * (1 - j) ≤ min o.maxBackoff b * 1 := by nlinarith
        _ = min o.maxBackoff b := mul_one _
        _ ≤ o.maxBackoff := hmin_le_M
  · -- upper bound
    simp only [calculateBackoff]
    rcases le_total b o.maxBackoff with hbM | hMb
    · have : min o.maxBackoff b = b := min_eq_right hbM
      rw [this]
      calc min (b * (1 - j + rand * (2 * j))) o.maxBackoff
            ≤ b * (1 - j + rand * (2 * j)) := min_le_left _ _
        _ ≤ b * (1 + j) := by nlinarith
    · have : min o.maxBackoff b = o.maxBackoff := min_eq_left hMb
      rw [this]
      calc min (b * (1 - j + rand * (2 * j))) o.maxBackoff
            ≤ o.maxBackoff := min_le_right _ _
        _ ≤ o.maxBackoff * (1 + j) := by nlinarith
  · -- nonnegative
    simp only [calculateBackoff]
    exact le_min (by nlinarith) hmb
  · -- absolute cap
    simp only [calculateBackoff]
    calc min (b * (1 - j + rand * (2 * j))) o.maxBackoff
          ≤ o.maxBackoff := min_le_right _ _
      _ ≤ o.maxBackoff * (1 + j) := by nlinarith

/-- Witness for C5 at the default options, attempt 2, random draw 1/2. -/
theorem calculateBackoff_spec_witness :
    (DEFAULT_RETRY_OPTIONS.jitter = 0 →
      calculateBackoff 2 DEFAULT_RETRY_OPTIONS (1 / 2)
        = min DEFAULT_RETRY_OPTIONS.maxBackoff
            (DEFAULT_RETRY_OPTIONS.initialBackoff * DEFAULT_RETRY_OPTIONS.backoffFactor ^ 2))
    ∧ min DEFAULT_RETRY_OPTIONS.maxBackoff
        (DEFAULT_RETRY_OPTIONS.initialBackoff * DEFAULT_RETRY_OPTIONS.backoffFactor ^ 2)
        * (1 - DEFAULT_RETRY_OPTIONS.jitter)
        ≤ calculateBackoff 2 DEFAULT_RETRY_OPTIONS (1 / 2)
    ∧ calculateBackoff 2 DEFAULT_RETRY_OPTIONS (1 / 2)
        ≤ min DEFAULT_RETRY_OPTIONS.maxBackoff
            (DEFAULT_RETRY_OPTIONS.initialBackoff * DEFAULT_RETRY_OPTIONS.backoffFactor ^ 2)
            * (1 + DEFAULT_RETRY_OPTIONS.jitter)
    ∧ 0 ≤ calculateBackoff 2 DEFAULT_RETRY_OPTIONS (1 / 2)
    ∧ calculateBackoff 2 DEFAULT_RETRY_OPTIONS (1 / 2)
        ≤ DEFAULT_RETRY_OPTIONS.maxBackoff * (1 + DEFAULT_RETRY_OPTIONS.jitter) :=
  calculateBackoff_spec DEFAULT_RETRY_OPTIONS 2 (1 / 2)
    (by norm_num [DEFAULT_RETRY_OPTIONS]) (by norm_num [DEFAULT_RETRY_OPTIONS])
    (by norm_num [DEFAULT_RETRY_OPTIONS]) (by norm_num [DEFAULT_RETRY_OPTIONS])
    (by norm_num [DEFAULT_RETRY_OPTIONS]) (by norm_num) (by norm_num)

end HNReel

namespace HNReel

/-! ### Claim C4: tree partial failure -/

/-- A node whose own resolution succeeds always materializes (child failures are
caught inside), and the materialized node carries the resolved item's fields. -/
theorem getItemWithComments_ok_of_resolve_ok {ε : Type}
    (resolve : Nat → Except ε HackerNewsItem) (maxDepth currentDepth itemId : Nat)
    (it : HackerNewsItem) (h : resolve itemId = .ok it) :
    ∃ t, getItemWithComments resolve maxDepth currentDepth itemId = Except.ok t
      ∧ t.item = it := by
  unfold getItemWithComments
  simp only [h]
  split
  · exact ⟨⟨it, []⟩, rfl, rfl⟩
  · split
    · exact ⟨⟨it, []⟩, rfl, rfl⟩
    · exact ⟨_, rfl, rfl⟩

/-- A node whose own resolution fails propagates the error. -/
theorem getItemWithComments_error_of_resolve_error {ε : Type}
    (resolve : Nat → Except ε HackerNewsItem) (maxDepth currentDepth itemId : Nat)
    (e : ε) (h : resolve itemId = .error e) :
    getItemWithComments resolve maxDepth currentDepth itemId = Except.error e := by
  unfold getItemWithComments
  simp [h]

/-- Claim C4: tree partial failure.  If the root resolves to an item with child ids
[A, B, C], resolving B always fails, and A and C resolve to items flagged neither
deleted nor dead, then materializing the root does not throw and its replies list is
exactly the two real child nodes for A and C, in that order. -/
theorem tree_child_failure {ε : Type} (resolve : Nat → Except ε HackerNewsItem)
    (root A B C : Nat) (rootItem a c : HackerNewsItem) (e : ε) (maxDepth : Nat)
    (hroot : resolve root = .ok rootItem) (hkids : rootItem.kids = some [A, B, C])
    (hA : resolve A = .ok a) (haDel : a.deleted = false) (haDead : a.dead = false)
    (hB : resolve B = .error e)
    (hC : resolve C = .ok c) (hcDel : c.deleted = false) (hcDead : c.dead = false)
    (hd : 1 ≤ maxDepth) :
    ∃ ta tc, getItemWithComments resolve maxDepth 1 A = Except.ok ta
      ∧ getItemWithComments resolve maxDepth 1 C = Except.ok tc
      ∧ getItemWithComments resolve maxDepth 0 root = Except.ok ⟨rootItem, [ta, tc]⟩ := by
  obtain ⟨ta, hta, htaI⟩ :=
    getItemWithComments_ok_of_resolve_ok resolve maxDepth 1 A a hA
  obtain ⟨tc, htc, htcI⟩ :=
    getItemWithComments_ok_of_resolve_ok resolve maxDepth 1 C c hC
  have hBerr := getItemWithComments_error_of_resolve_error resolve maxDepth 1 B e hB
  refine ⟨ta, tc, hta, htc, ?_⟩
  unfold getItemWithComments
  simp only [hroot, hkids]
  rw [dif_neg (by simp; omega)]
  simp only [List.map_cons, List.map_nil, hta, htc, hBerr]
  simp [List.filter, htaI, htcI, haDel, haDead, hcDel, hcDead, placeholderTree]

/-- Witness for C4 at the concrete resolution function of the scenario. -/
theorem tree_child_failure_witness :
    ∃ ta tc, getItemWithComments treeScenarioResolve 25 1 2 = Except.ok ta
      ∧ getItemWithComments treeScenarioResolve 25 1 4 = Except.ok tc
      ∧ getItemWithComments treeScenarioResolve 25 0 1
          = Except.ok ⟨⟨1, false, false, some [2, 3, 4], none, some "story"⟩, [ta, tc]⟩ :=
  tree_child_failure treeScenarioResolve 1 2 3 4
    ⟨1, false, false, some [2, 3, 4], none, some "story"⟩
    ⟨2, false, false, none, some "first", some "comment"⟩
    ⟨4, false, false, none, some "third", some "comment"⟩
    () 25 rfl rfl rfl rfl rfl rfl rfl rfl rfl (by decide)

end HNReel

namespace HNReel

/-! ### Counting helpers for fetch events -/

@[simp] theorem fetchStarts_nil : fetchStarts [] = 0 := rfl

@[simp] theorem fetchStarts_append (l1 l2 : List FetchEvent) :
    fetchStarts (l1 ++ l2) = fetchStarts l1 + fetchStarts l2 := by
  simp [fetchStarts, List.filter_append]

@[simp] theorem fetchStarts_cons_fetch (c i : Nat) (l : List FetchEvent) :
    fetchStarts (.fetchStart c i :: l) = fetchStarts l + 1 := by
  simp [fetchStarts, isFetchStart]

@[simp] theorem fetchStarts_cons_sleep (c : Nat) (d : ℚ) (l : List FetchEvent) :
    fetchStarts (.sleepStart c d :: l) = fetchStarts l := by
  simp [fetchStarts, isFetchStart]

@[simp] theorem fetchStarts_ite_sleep (c : Prop) [Decidable c] (a : Nat) (d : ℚ) :
    fetchStarts (if c then [FetchEvent.sleepStart a d] else []) = 0 := by
  split <;> rfl

@[simp] theorem abortSeen_none (c : Nat) : abortSeen none c = false := rfl

/-! ### Claim C6: retry termination -/

/-- On a transport that throws a network error on every call (with network-error
retry enabled), each remaining loop iteration makes exactly one call and the loop
ends by rethrowing the error of the final call. -/
theorem fetchLoop_allNetFail (o : RetryOptions) (world : Nat → TransportResult)
    (rand : Nat → ℚ) (eid : Nat → Nat)
    (hnet : o.retryNetworkErrors = true)
    (hw : ∀ i, world i = .exn true (eid i)) :
    ∀ (gas attempt clock callIdx : Nat) (lastErr : FetchError),
      gas + attempt = o.maxRetries + 1 → 1 ≤ gas →
      (fetchLoop o world none rand gas attempt clock callIdx lastErr).1
        = .failure (.transport true (eid (callIdx + gas - 1)))
      ∧ fetchStarts (fetchLoop o world none rand gas attempt clock callIdx lastErr).2
        = gas := by
  intro gas
  induction gas with
  | zero =>
    intro attempt clock callIdx lastErr hsum hge
    exact absurd hge (by omega)
  | succ g ih =>
    intro attempt clock callIdx lastErr hsum _
    by_cases hlt : attempt < o.maxRetries
    · have hg : 1 ≤ g := by omega
      have ihAll := fun clk => ih (attempt + 1) clk (callIdx + 1)
        (FetchError.transport true (eid callIdx)) (by omega) hg
      have hidx : callIdx + 1 + g - 1 = callIdx + (g + 1) - 1 := by omega
      constructor
      · simp only [fetchLoop, fetchLoopAttempt, abortSeen_none, Bool.false_eq_true,
          if_false, hw callIdx, hnet, Bool.not_true, Bool.or_self, hlt, if_true]
        rw [(ihAll _).1, hidx]
      · simp only [fetchLoop, fetchLoopAttempt, abortSeen_none, Bool.false_eq_true,
          if_false, hw callIdx, hnet, Bool.not_true, Bool.or_self, hlt, if_true,
          fetchStarts_append, fetchStarts_ite_sleep, fetchStarts_cons_fetch,
          fetchStarts_nil]
        rw [(ihAll _).2]
        omega
    · have hg0 : g = 0 := by omega
      subst hg0
      constructor
      · simp [fetchLoop, fetchLoopAttempt, hw callIdx, hnet, hlt]
      · simp [fetchLoop, fetchLoopAttempt, hw callIdx, hnet, hlt]

/-- Claim C6: retry termination.  With maxRetries = m and network-error retry
enabled, a transport that throws a network error on every call is invoked exactly
m + 1 times, after which fetchWithRetry fails by propagating the error thrown by the
final (m+1st) call; the loop terminates (the run is a finite value). -/
theorem retry_termination (o : RetryOptions) (world : Nat → TransportResult)
    (rand : Nat → ℚ) (m : Nat) (eid : Nat → Nat)
    (hm : o.maxRetries = m) (hnet : o.retryNetworkErrors = true)
    (hw : ∀ i, world i = .exn true (eid i)) :
    fetchStarts (fetchWithRetry (.withOptions o) world none rand).2 = m + 1
    ∧ (fetchWithRetry (.withOptions o) world none rand).1
      = .failure (.transport true (eid m)) := by
  have h := fetchLoop_allNetFail o world rand eid hnet hw (o.maxRetries + 1) 0 0 0
    (.transport false 0) (by omega) (by omega)
  have hidx : 0 + (o.maxRetries + 1) - 1 = m := by omega
  rw [hidx] at h
  constructor
  · simpa [fetchWithRetry, hm] using h.2
  · simpa [fetchWithRetry, hm] using h.1

/-- Witness for C6: the default options against an always-throwing transport. -/
theorem retry_termination_witness :
    fetchStarts (fetchWithRetry (.withOptions DEFAULT_RETRY_OPTIONS)
        (fun i => .exn true i) none (fun _ => 0)).2 = 3 + 1
    ∧ (fetchWithRetry (.withOptions DEFAULT_RETRY_OPTIONS)
        (fun i => .exn true i) none (fun _ => 0)).1
      = .failure (.transport true 3) :=
  retry_termination DEFAULT_RETRY_OPTIONS (fun i => .exn true i) (fun _ => 0) 3
    (fun i => i) rfl rfl (fun _ => rfl)

/-! ### Claim C7: rate-limit surfacing -/

/-- Claim C7: rate-limit surfacing.  A transport returning a non-ok 429 response
with Retry-After 30 on every call, with 429 retryable and maxRetries = 0, makes the
run fail after one call with a RateLimitError whose status is 429 and whose
retryAfterSeconds is 30. -/
theorem rate_limit_surfacing (o : RetryOptions) (world : Nat → TransportResult)
    (rand : Nat → ℚ) (r0 : Resp)
    (hm : o.maxRetries = 0) (h429 : 429 ∈ o.retryableStatusCodes)
    (hw : ∀ i, world i = .resp r0)
    (hok : r0.ok = false) (hst : r0.status = 429) (hra : r0.retryAfter = some 30) :
    (fetchWithRetry (.withOptions o) world none rand).1
      = .failure (.rateLimit 429 (some 30))
    ∧ fetchStarts (fetchWithRetry (.withOptions o) world none rand).2 = 1 := by
  constructor
  · simp [fetchWithRetry, fetchLoop, fetchLoopAttempt, hm, hw 0, hok, hst, h429, hra]
  · simp [fetchWithRetry, fetchLoop, fetchLoopAttempt, hm, hw 0, hok, hst, h429, hra]

/-- Witness for C7 at a concrete 429 responder. -/
theorem rate_limit_surfacing_witness :
    (fetchWithRetry (.withOptions ⟨0, 1, 10, 0, [429], true, 2⟩)
        (fun _ => .resp ⟨false, 429, "Too Many Requests", some 30⟩) none (fun _ => 0)).1
      = .failure (.rateLimit 429 (some 30))
    ∧ fetchStarts (fetchWithRetry (.withOptions ⟨0, 1, 10, 0, [429], true, 2⟩)
        (fun _ => .resp ⟨false, 429, "Too Many Requests", some 30⟩) none (fun _ => 0)).2
      = 1 :=
  rate_limit_surfacing ⟨0, 1, 10, 0, [429], true, 2⟩
    (fun _ => .resp ⟨false, 429, "Too Many Requests", some 30⟩) (fun _ => 0)
    ⟨false, 429, "Too Many Requests", some 30⟩
    rfl (by decide) (fun _ => rfl) rfl rfl rfl

/-! ### Claim C10: the literal false retry argument disables everything -/

/-- Claim C10: when the retry-options argument is exactly false, fetchWithRetry
makes exactly one transport call and returns its response unchanged regardless of
status (it never inspects ok or the status code and never converts a non-2xx
response into an error); it fails only when the signal was already aborted before
the call (no transport call at all) or when the transport itself throws (that error
is propagated as-is). -/
theorem retry_disabled_passthrough (world : Nat → TransportResult)
    (abortAt : Option Nat) (rand : Nat → ℚ) :
    (abortSeen abortAt 0 = true →
      fetchWithRetry .disabled world abortAt rand = (.failure .abortError, []))
    ∧ (abortSeen abortAt 0 = false →
        fetchStarts (fetchWithRetry .disabled world abortAt rand).2 = 1
        ∧ (∀ r, world 0 = .resp r →
            (fetchWithRetry .disabled world abortAt rand).1 = .success r)
        ∧ (∀ net errId, world 0 = .exn net errId →
            (fetchWithRetry .disabled world abortAt rand).1
              = .failure (.transport net errId))) := by
  constructor
  · intro h
    simp [fetchWithRetry, h]
  · intro h
    refine ⟨?_, ?_, ?_⟩
    · rcases hw : world 0 with r | ⟨net, errId⟩ <;> simp [fetchWithRetry, h, hw]
    · intro r hw
      simp [fetchWithRetry, h, hw]
    · intro net errId hw
      simp [fetchWithRetry, h, hw]

/-- Witness for C10: a never-aborting run against a transport returning a non-2xx
response, which is passed through unchanged. -/
theorem retry_disabled_passthrough_witness :
    (abortSeen (none : Option Nat) 0 = true →
      fetchWithRetry .disabled (fun _ => .resp ⟨false, 404, "Not Found", none⟩) none
        (fun _ => 0) = (.failure .abortError, []))
    ∧ (abortSeen (none : Option Nat) 0 = false →
        fetchStarts (fetchWithRetry .disabled
            (fun _ => .resp ⟨false, 404, "Not Found", none⟩) none (fun _ => 0)).2 = 1
        ∧ (∀ r, (fun _ : Nat => TransportResult.resp ⟨false, 404, "Not Found", none⟩) 0
              = .resp r →
            (fetchWithRetry .disabled (fun _ => .resp ⟨false, 404, "Not Found", none⟩)
              none (fun _ => 0)).1 = .success r)
        ∧ (∀ net errId,
            (fun _ : Nat => TransportResult.resp ⟨false, 404, "Not Found", none⟩) 0
              = .exn net errId →
            (fetchWithRetry .disabled (fun _ => .resp ⟨false, 404, "Not Found", none⟩)
              none (fun _ => 0)).1 = .failure (.transport net errId))) :=
  retry_disabled_passthrough (fun _ => .resp ⟨false, 404, "Not Found", none⟩) none
    (fun _ => 0)

end HNReel

namespace HNReel

/-! ### Claim C9: cancellation -/

/-- If the signal has fired by the loop-top check, the iteration throws AbortError
before starting anything. -/
theorem fetchLoop_aborted (o : RetryOptions) (world : Nat → TransportResult)
    (rand : Nat → ℚ) (T g attempt clock callIdx : Nat) (lastErr : FetchError)
    (h : T ≤ clock) :
    fetchLoop o world (some T) rand (g + 1) attempt clock callIdx lastErr
      = (.failure .abortError, []) := by
  simp [fetchLoop, abortSeen, h]

/-- A loop entered at or after the abort clock starts no awaits at all. -/
theorem fetchLoop_events_nil_of_aborted (o : RetryOptions)
    (world : Nat → TransportResult) (rand : Nat → ℚ)
    (T gas attempt clock callIdx : Nat) (lastErr : FetchError) (h : T ≤ clock) :
    (fetchLoop o world (some T) rand gas attempt clock callIdx lastErr).2 = [] := by
  cases gas with
  | zero => simp [fetchLoop]
  | succ g => simp [fetchLoop_aborted o world rand T g attempt clock callIdx lastErr h]

/-- Every await started by the attempt tail (transport call at clock1 and whatever
follows) starts strictly before the abort clock, given the same for the recursive
loop entries. -/
theorem fetchLoopAttempt_events_clock_lt (o : RetryOptions)
    (world : Nat → TransportResult) (rand : Nat → ℚ)
    (T gas attempt clock1 callIdx : Nat)
    (ih : ∀ (attempt clock callIdx : Nat) (lastErr : FetchError) (ev : FetchEvent),
      ev ∈ (fetchLoop o world (some T) rand gas attempt clock callIdx lastErr).2 →
      ev.clock < T)
    (h1 : clock1 < T) :
    ∀ ev ∈ (fetchLoopAttempt o world (some T) rand gas attempt clock1 callIdx).2,
      ev.clock < T := by
  intro ev hev
  rcases hworld : world callIdx with ⟨r⟩ | ⟨net, errId⟩
  · simp only [fetchLoopAttempt, hworld] at hev
    split at hev
    · simp at hev
      subst hev
      simpa [FetchEvent.clock] using h1
    · split at hev
      · simp at hev
        subst hev
        simpa [FetchEvent.clock] using h1
      · split at hev
        · simp at hev
          subst hev
          simpa [FetchEvent.clock] using h1
        · split at hev
          · split at hev
            · split at hev
              · split at hev
                · simp at hev
                  subst hev
                  simpa [FetchEvent.clock] using h1
                · rename_i hc2
                  have hc2' : clock1 + 1 < T := by
                    simp [abortSeen] at hc2
                    omega
                  split at hev
                  · simp at hev
                    rcases hev with rfl | rfl
                    · simpa [FetchEvent.clock] using h1
                    · simpa [FetchEvent.clock] using hc2'
                  · simp at hev
                    rcases hev with rfl | rfl | hev
                    · simpa [FetchEvent.clock] using h1
                    · simpa [FetchEvent.clock] using hc2'
                    · exact ih _ _ _ _ _ hev
              · simp at hev
                rcases hev with rfl | hev
                · simpa [FetchEvent.clock] using h1
                · exact ih _ _ _ _ _ hev
            · simp at hev
              rcases hev with rfl | hev
              · simpa [FetchEvent.clock] using h1
              · exact ih _ _ _ _ _ hev
          · simp at hev
            subst hev
            simpa [FetchEvent.clock] using h1
  · simp only [fetchLoopAttempt, hworld] at hev
    split at hev
    · simp at hev
      subst hev
      simpa [FetchEvent.clock] using h1
    · split at hev
      · simp at hev
        rcases hev with rfl | hev
        · simpa [FetchEvent.clock] using h1
        · exact ih _ _ _ _ _ hev
      · simp at hev
        subst hev
        simpa [FetchEvent.clock] using h1

/-- Every await the retry loop ever starts does so strictly before the abort clock.
-/
theorem fetchLoop_events_clock_lt (o : RetryOptions) (world : Nat → TransportResult)
    (rand : Nat → ℚ) (T : Nat) :
    ∀ (gas attempt clock callIdx : Nat) (lastErr : FetchError) (ev : FetchEvent),
      ev ∈ (fetchLoop o world (some T) rand gas attempt clock callIdx lastErr).2 →
      ev.clock < T := by
  intro gas
  induction gas with
  | zero =>
    intro attempt clock callIdx lastErr ev hev
    simp [fetchLoop] at hev
  | succ g ih =>
    intro attempt clock callIdx lastErr ev hev
    by_cases h0 : T ≤ clock
    · rw [fetchLoop_aborted o world rand T g attempt clock callIdx lastErr h0] at hev
      simp at hev
    · push_neg at h0
      simp only [fetchLoop] at hev
      rw [if_neg (by simp [abortSeen]; omega)] at hev
      rcases Nat.eq_zero_or_pos attempt with ha | ha
      · simp only [ha, lt_self_iff_false, if_false, List.length_nil, Nat.add_zero] at hev
        rw [if_neg (by simp [abortSeen]; omega)] at hev
        simp only [List.nil_append] at hev
        exact fetchLoopAttempt_events_clock_lt o world rand T g 0 clock callIdx ih h0 ev
          (by simpa using hev)
      · have ha' : (0 < attempt) = True := by simp [ha]
        simp only [ha', if_true, List.length_cons, List.length_nil, Nat.zero_add] at hev
        by_cases h1 : T ≤ clock + 1
        · rw [if_pos (by simp [abortSeen]; omega)] at hev
          simp at hev
          subst hev
          simpa [FetchEvent.clock] using h0
        · rw [if_neg (by simp [abortSeen]; omega)] at hev
          simp at hev
          rcases hev with rfl | hev
          · simpa [FetchEvent.clock] using h0
          · exact fetchLoopAttempt_events_clock_lt o world rand T g attempt (clock + 1)
              callIdx ih (by omega) ev hev

/-- If the abort clock is at most one tick after the transport call starts, the
attempt tail makes that one call and nothing more. -/
theorem fetchLoopAttempt_fetchStarts_le_one (o : RetryOptions)
    (world : Nat → TransportResult) (rand : Nat → ℚ)
    (T gas attempt clock1 callIdx : Nat) (h2 : T ≤ clock1 + 1) :
    fetchStarts (fetchLoopAttempt o world (some T) rand gas attempt clock1 callIdx).2
      ≤ 1 := by
  have hnil : ∀ (a ci : Nat) (le : FetchError),
      (fetchLoop o world (some T) rand gas a (clock1 + 1) ci le).2 = [] :=
    fun a ci le => fetchLoop_events_nil_of_aborted o world rand T gas a (clock1 + 1) ci le h2
  have hnil2 : ∀ (a ci : Nat) (le : FetchError),
      (fetchLoop o world (some T) rand gas a (clock1 + 1 + 1) ci le).2 = [] :=
    fun a ci le =>
      fetchLoop_events_nil_of_aborted o world rand T gas a (clock1 + 1 + 1) ci le (by omega)
  rcases hworld : world callIdx with ⟨r⟩ | ⟨net, errId⟩
  all_goals simp only [fetchLoopAttempt, hworld, hnil, hnil2]
  all_goals repeat' split
  all_goals simp

/-- Same one-call bound for a whole loop entered one tick before the abort clock. -/
theorem fetchLoop_fetchStarts_le_one (o : RetryOptions)
    (world : Nat → TransportResult) (rand : Nat → ℚ)
    (T gas attempt clock callIdx : Nat) (lastErr : FetchError) (h : T ≤ clock + 1) :
    fetchStarts (fetchLoop o world (some T) rand gas attempt clock callIdx lastErr).2
      ≤ 1 := by
  cases gas with
  | zero => simp [fetchLoop]
  | succ g =>
    by_cases h0 : T ≤ clock
    · rw [fetchLoop_aborted o world rand T g attempt clock callIdx lastErr h0]
      simp
    · push_neg at h0
      simp only [fetchLoop]
      rw [if_neg (by simp [abortSeen]; omega)]
      rcases Nat.eq_zero_or_pos attempt with ha | ha
      · simp only [ha, lt_self_iff_false, if_false, List.length_nil, Nat.add_zero]
        rw [if_neg (by simp [abortSeen]; omega)]
        simpa using
          fetchLoopAttempt_fetchStarts_le_one o world rand T g 0 clock callIdx (by omega)
      · have ha' : (0 < attempt) = True := by simp [ha]
        simp only [ha', if_true, List.length_cons, List.length_nil, Nat.zero_add]
        rw [if_pos (by simp [abortSeen]; omega)]
        simp

end HNReel

namespace HNReel

/-- Claim C9: cancellation.  For every run with an abort signal firing at clock T:
(a) no transport call or sleep is ever started at or after clock T (once cancellation
has been requested, nothing further starts); (b) a signal aborted before the run
begins makes it fail with the AbortError and perform no await at all; (c) if the
signal fires no later than the end of the first attempt, the transport is called at
most once; (d) concretely, when the first attempt's response is a retryable non-ok
status with no Retry-After and retries remain, a signal firing at the end of that
attempt makes the run fail with the AbortError after exactly one transport call. -/
theorem cancellation (arg : RetryArg) (world : Nat → TransportResult)
    (rand : Nat → ℚ) (T : Nat) :
    (∀ ev ∈ (fetchWithRetry arg world (some T) rand).2, ev.clock < T)
    ∧ (T = 0 → fetchWithRetry arg world (some T) rand = (.failure .abortError, []))
    ∧ (T ≤ 1 → fetchStarts (fetchWithRetry arg world (some T) rand).2 ≤ 1)
    ∧ (∀ (o : RetryOptions) (r0 : Resp), arg = .withOptions o → T = 1 →
        1 ≤ o.maxRetries → world 0 = .resp r0 → r0.ok = false →
        r0.status ∈ o.retryableStatusCodes → r0.retryAfter = none →
        (fetchWithRetry arg world (some T) rand).1 = .failure .abortError
        ∧ fetchStarts (fetchWithRetry arg world (some T) rand).2 = 1) := by
  refine ⟨?_, ?_, ?_, ?_⟩
  · intro ev hev
    by_cases hT : T = 0
    · subst hT
      simp [fetchWithRetry, abortSeen] at hev
    · have h0 : abortSeen (some T) 0 = false := by
        simp [abortSeen]
        omega
      rcases arg with _ | _ | o
      · simp only [fetchWithRetry, h0, Bool.false_eq_true, if_false] at hev
        exact fetchLoop_events_clock_lt _ world rand T _ _ _ _ _ ev hev
      · simp only [fetchWithRetry, h0, Bool.false_eq_true, if_false] at hev
        rcases hw : world 0 with ⟨r⟩ | ⟨net, errId⟩ <;> rw [hw] at hev <;> simp at hev <;>
          subst hev <;> simp [FetchEvent.clock] <;> omega
      · simp only [fetchWithRetry, h0, Bool.false_eq_true, if_false] at hev
        exact fetchLoop_events_clock_lt o world rand T _ _ _ _ _ ev hev
  · intro hT
    subst hT
    simp [fetchWithRetry, abortSeen]
  · intro hT
    by_cases hT0 : T = 0
    · subst hT0
      simp [fetchWithRetry, abortSeen]
    · have h0 : abortSeen (some T) 0 = false := by
        simp [abortSeen]
        omega
      rcases arg with _ | _ | o
      · simp only [fetchWithRetry, h0, Bool.false_eq_true, if_false]
        exact fetchLoop_fetchStarts_le_one _ world rand T _ 0 0 0 _ (by omega)
      · simp only [fetchWithRetry, h0, Bool.false_eq_true, if_false]
        rcases hw : world 0 with ⟨r⟩ | ⟨net, errId⟩ <;> simp [hw]
      · simp only [fetchWithRetry, h0, Bool.false_eq_true, if_false]
        exact fetchLoop_fetchStarts_le_one o world rand T _ 0 0 0 _ (by omega)
  · intro o r0 harg hT hmax hw hok hst hra
    subst harg
    subst hT
    obtain ⟨k, hk⟩ : ∃ k, o.maxRetries = k + 1 := ⟨o.maxRetries - 1, by omega⟩
    have h0 : abortSeen (some 1) 0 = false := by simp [abortSeen]
    have h1t : abortSeen (some 1) 1 = true := by simp [abortSeen]
    have hrun :
        fetchWithRetry (.withOptions o) world (some 1) rand
          = (.failure .abortError, [FetchEvent.fetchStart 0 0]) := by
      simp only [fetchWithRetry, h0, Bool.false_eq_true, if_false, hk]
      simp only [fetchLoop, fetchLoopAttempt, h0, h1t, Bool.false_eq_true, if_false,
        if_true, lt_self_iff_false, List.length_nil, Nat.add_zero, Nat.zero_add,
        List.nil_append, hw, hok, hra]
      rw [if_neg (not_not_intro hst)]
      rw [if_neg (by rintro ⟨h1, _⟩; omega)]
      rw [if_pos (by omega : 0 < o.maxRetries)]
      simp
    rw [hrun]
    constructor
    · rfl
    · simp

end HNReel

namespace HNReel

/-- Witness for C9: the utilities test scenario, a transport that always returns 500
with the signal firing at the end of the first attempt, under maxRetries = 2. -/
theorem cancellation_witness :
    (fetchWithRetry (.withOptions ⟨2, 1, 10, 0, [500], true, 2⟩)
        (fun _ => .resp ⟨false, 500, "Internal Server Error", none⟩) (some 1)
        (fun _ => 0)).1 = .failure .abortError
    ∧ fetchStarts (fetchWithRetry (.withOptions ⟨2, 1, 10, 0, [500], true, 2⟩)
        (fun _ => .resp ⟨false, 500, "Internal Server Error", none⟩) (some 1)
        (fun _ => 0)).2 = 1 :=
  (cancellation (.withOptions ⟨2, 1, 10, 0, [500], true, 2⟩)
      (fun _ => .resp ⟨false, 500, "Internal Server Error", none⟩) (fun _ => 0) 1).2.2.2
    ⟨2, 1, 10, 0, [500], true, 2⟩ ⟨false, 500, "Internal Server Error", none⟩
    rfl rfl (by decide) rfl rfl (by decide) rfl

end HNReel
